import Mathlib

/-!
Shallow embedding of the change-detection core of Compl.AI
(src/RegScrapper.py, src/openAIAPI.py, src/regulation_scraper.py).

Python dictionaries holding the JSON verdicts are modelled as association
lists of `JVal`; Python truthiness of `d.get(k)` (absent key gives `None`,
which is falsy) is modelled by `pyGetTruthy`.  External libraries
(the `json` parser, the LLM transport, `hashlib.sha256`, BeautifulSoup
extraction, difflib's opcode computation) are abstracted as function
parameters; everything written in the repository itself is translated
definition by definition.
-/

/-- A JSON value as produced by Python's json.loads. -/
inductive JVal where
  | bool (b : Bool)
  | str (s : String)
  | num (n : Int)
  | arr (xs : List JVal)
  | obj (fields : List (String × JVal))
  | null

/-- A Python dict with string keys, as used for the classifier verdicts. -/
abbrev Dict := List (String × JVal)

/-- Python truthiness of a JSON value (bool(v)). -/
def JVal.truthy : JVal → Bool
  | .bool b => b
  | .str s => !(s == "")
  | .num n => !(n == 0)
  | .arr xs => !xs.isEmpty
  | .obj fs => !fs.isEmpty
  | .null => false

/-- d.get(k): first binding of k in the dict, if any. -/
def dictGet (d : Dict) (k : String) : Option JVal :=
  match d.find? (fun kv => kv.1 == k) with
  | some kv => some kv.2
  | none => none

/-- Truthiness of d.get(k) in Python: a missing key reads as None, which is falsy. -/
def pyGetTruthy (d : Dict) (k : String) : Bool :=
  match dictGet d k with
  | some v => v.truthy
  | none => false

/-- Python character slicing s[:n]: the first n characters of s.
Defined on the character list so that it is kernel-reducible (the
core String.take goes through byte positions). -/
def pyTake (s : String) (n : Nat) : String :=
  String.mk (s.data.take n)

/-- The classification prompt built in summarize_meaningful_diff
(src/RegScrapper.py lines 133-139); both texts are truncated to their
first 12,000 characters by the slice [:12000]. -/
def build_prompt (old_text new_text : String) : String :=
  "You are a Canadian financial compliance analyst for FINTRAC AML obligations (MSBs). " ++
  "Return STRICT JSON only. Keys: is_meaningful_change (bool), reason (str), " ++
  "categories (array), changes (array of \x7bsection_hint, old_excerpt, new_excerpt, analysis\x7d), " ++
  "regeneration_required (bool). Ignore punctuation/formatting-only edits.\n\n" ++
  "OLD:\n" ++ pyTake old_text 12000 ++ "\n\nNEW:\n" ++ pyTake new_text 12000 ++
  "\n\nContext: FINTRAC MSB obligations page."

/-- The fallback verdict built in the except branch of summarize_meaningful_diff
(src/RegScrapper.py line 147). -/
def parse_failure_verdict (txt : String) : Dict :=
  [("is_meaningful_change", JVal.bool false),
   ("reason", JVal.str "JSON parse error or unexpected LLM output"),
   ("raw", JVal.str txt)]

/-- summarize_meaningful_diff (src/RegScrapper.py lines 128-147).
`llm` abstracts the composition of llm.generate_text and llm.text_for
(the completion transport), and `jsonLoads` abstracts json.loads returning
an object (None when the text is not parseable as a JSON object). -/
def summarize_meaningful_diff (llm : String → String) (jsonLoads : String → Option Dict)
    (old_text new_text : String) : Dict :=
  let prompt := build_prompt old_text new_text
  let txt := llm prompt
  match jsonLoads txt with
  | some parsed => parsed
  | none => parse_failure_verdict txt

/-!
Version store model.

The regulations row for one source (the store is keyed by (source, url);
we model the state for a single source) and its version history.
The version-history side of the store lives in the Supabase schema
(the upsert_regulation_with_version RPC and the versions table), which is
not under src/; those effects are modelled from the spec as flagged below.
-/

/-- A version row: an immutable snapshot of a source's content
(spec section 3, Version). change_summary is none for the seed row and
some dict for rows written through the RPC (which receives
`change_summary or \x7b\x7d`, src/RegScrapper.py line 106). -/
structure VersionRow where
  version : Nat
  content : String
  content_hash : String
  change_summary : Option Dict

/-- The regulations-table row for one source, with the columns written by
upsert_page (src/RegScrapper.py lines 73-92) plus the current-version
pointer maintained by the store. Timestamps are modelled as naturals. -/
structure SourceRec where
  title : String
  url : String
  lang : String
  category : String
  content : String
  content_hash : String
  last_fetched : Nat
  last_updated : Option Nat
  current_version : Nat

/-- The store state for one source: the regulations row (none before the
seed fetch), the append-only version history, and an instrumentation
counter of classifier invocations. -/
structure Store where
  reg : Option SourceRec
  versions : List VersionRow
  classifier_calls : Nat

/-- The store state before any fetch: no record for the source. -/
def Store.empty : Store := ⟨none, [], 0⟩

/-- upsert_page (src/RegScrapper.py lines 73-92): a PostgREST upsert on
conflict (source, url) that writes the payload columns — title, url, lang,
category, content, content_hash, last_fetched, and last_updated only when
changed is true — leaving the other columns of an existing row untouched.
Modelled from the spec: on insert (no prior row) the store seeds the
version history — "seed(source, text) writes version 1, no verdict, sets
current-version pointer" (spec section 4.5); that side lives in the
Supabase schema, not under src/. -/
def upsert_page (st : Store) (title url lang category content content_hash : String)
    (changed : Bool) (now : Nat) : Store :=
  match st.reg with
  | none =>
      { reg := some { title := title, url := url, lang := lang, category := category,
                      content := content, content_hash := content_hash,
                      last_fetched := now,
                      last_updated := if changed then some now else none,
                      current_version := 1 },
        versions := st.versions ++ [⟨1, content, content_hash, none⟩],
        classifier_calls := st.classifier_calls }
  | some old =>
      { reg := some
          { old with
              title := title, url := url, lang := lang, category := category,
              content := content, content_hash := content_hash,
              last_fetched := now,
              last_updated := if changed then some now else old.last_updated },
        versions := st.versions,
        classifier_calls := st.classifier_calls }

/-- upsert_with_version (src/RegScrapper.py lines 94-108), a thin wrapper
around the Supabase RPC upsert_regulation_with_version.
Modelled from the spec: the RPC itself is not under src/; per spec
section 4.5, record_change "appends the next version number, stores the
verdict only when meaningful, advances the current-version pointer,
updates last-fetch and last-meaningful-change timestamps". The wrapper
passes `change_summary or \x7b\x7d` (line 106), so an absent summary is stored
as the empty object. -/
def upsert_with_version (st : Store) (title url lang category content content_hash : String)
    (change_summary : Option Dict) (now : Nat) : Store :=
  let next := (match st.reg with | some r => r.current_version | none => 0) + 1
  { reg := some { title := title, url := url, lang := lang, category := category,
                  content := content, content_hash := content_hash,
                  last_fetched := now, last_updated := some now,
                  current_version := next },
    versions := st.versions ++ [⟨next, content, content_hash, some (change_summary.getD [])⟩],
    classifier_calls := st.classifier_calls }

/-- scrape_one (src/RegScrapper.py lines 155-202) after the fetch and
normalization steps: text is the cleaned page text, hash abstracts
hashlib.sha256 hexdigest, classify abstracts summarize_meaningful_diff on
(existing content, new text). The classifier_calls counter records that
the classifier is invoked exactly on the changed branch. -/
def scrape_one (classify : String → String → Dict) (hash : String → String)
    (title url category lang : String) (st : Store) (text : String)
    (dry_run : Bool) (now : Nat) : Store :=
  let new_hash := hash text
  match st.reg with
  | none =>
      if dry_run then st
      else upsert_page st title url lang category text new_hash true now
  | some existing =>
      if existing.content_hash == new_hash then
        if dry_run then st
        else upsert_page st title url lang category existing.content existing.content_hash false now
      else if dry_run then st
      else
        let summary := classify existing.content text
        let st' := { st with classifier_calls := st.classifier_calls + 1 }
        upsert_with_version st' title url lang category text new_hash
          (if pyGetTruthy summary "is_meaningful_change" then some summary else none) now

/-!
C2: monotonic, contiguous, append-only versioning across fetch cycles.
A cycle is the pair (normalized text, capture time); main runs scrape_one
once per source per invocation, so a sequence of cycles for one source is
a fold of scrape_one in live mode.
-/

/-- A sequence of non-dry-run fetch cycles for one source, starting from a
given store state; each cycle supplies the normalized fetched text and the
capture time. -/
def run_cycles (classify : String → String → Dict) (hash : String → String)
    (title url category lang : String) (st : Store) (cycles : List (String × Nat)) : Store :=
  cycles.foldl (fun s c => scrape_one classify hash title url category lang s c.1 false c.2) st

/-- Whether one cycle counts as a content change: 1 when there is no
stored fingerprint yet (the seed) or the stored fingerprint differs from
the fingerprint of the fetched text, 0 otherwise. -/
def cycle_increment (hash : String → String) (fp : Option String) (text : String) : Nat :=
  match fp with
  | none => 1
  | some h => if h = hash text then 0 else 1

/-- The number of cycles on which the content changed (including the seed
cycle), judged exactly as the code judges it: by comparing the fingerprint
of the fetched text against the previously stored fingerprint (none before
the seed). -/
def changed_count (hash : String → String) : Option String → List (String × Nat) → Nat
  | _, [] => 0
  | fp, c :: rest => cycle_increment hash fp c.1 + changed_count hash (some (hash c.1)) rest

/-- The store invariant tying the regulations row to the version history:
version numbers are exactly 1..length in order, the current-version
pointer equals the number of stored versions, and fp tracks the stored
fingerprint. -/
def StoreInv (st : Store) (fp : Option String) : Prop :=
  st.versions.map (fun v => v.version) = List.range' 1 st.versions.length
  ∧ (match st.reg with
     | none => st.versions = [] ∧ fp = none
     | some r => r.current_version = st.versions.length ∧ fp = some r.content_hash)

/-!
Diff extraction (extract_changed_chunks, src/RegScrapper.py lines 111-126
and the identical src/openAIAPI.py lines 46-62) and aggregation
(evaluate_change, src/openAIAPI.py lines 96-107).
difflib.SequenceMatcher.get_opcodes is a library call; the opcode list it
returns is taken as an input. Python str.strip and "\n".join are modelled
at the character level so all definitions stay kernel-reducible.
-/

/-- Python whitespace for str.strip(): space, tab, newline, carriage
return, vertical tab, form feed. -/
def isPySpace (c : Char) : Bool :=
  c = ' ' || c = '\t' || c = '\n' || c = '\r' || c = '\x0b' || c = '\x0c'

/-- Python str.strip(): remove leading and trailing whitespace. -/
def pyStrip (s : String) : String :=
  String.mk (((s.data.dropWhile isPySpace).reverse.dropWhile isPySpace).reverse)

/-- Joining a list of character lists with newline characters. -/
def joinNL : List (List Char) → List Char
  | [] => []
  | [l] => l
  | l :: ls => l ++ '\n' :: joinNL ls

/-- Python "\n".join(lines) on strings. -/
def joinLinesNL (ls : List String) : String :=
  String.mk (joinNL (ls.map (fun s => s.data)))

/-- Python str.splitlines restricted to newline separators: splits at each
newline, with no final empty line for a trailing newline, and no lines at
all for the empty string. -/
def splitlinesAux (acc : List Char) : List Char → List (List Char)
  | [] => [acc.reverse]
  | c :: cs =>
      if c = '\n' then
        acc.reverse :: (if cs.isEmpty then [] else splitlinesAux [] cs)
      else splitlinesAux (c :: acc) cs

/-- Line list of a character list, Python splitlines style. -/
def splitlinesL (l : List Char) : List (List Char) :=
  if l.isEmpty then [] else splitlinesAux [] l

/-- text.splitlines() on strings. -/
def splitlines (s : String) : List String :=
  (splitlinesL s.data).map (fun l => String.mk l)

/-- One opcode of difflib.SequenceMatcher.get_opcodes(): a tag
("equal", "replace", "delete" or "insert") with the aligned half-open
line ranges [i1, i2) of the old text and [j1, j2) of the new text. -/
structure Opcode where
  tag : String
  i1 : Nat
  i2 : Nat
  j1 : Nat
  j2 : Nat

/-- The (old-slice, new-slice) pair built for one opcode: each range is
widened by the context window (max(0, i1 - context) is Nat subtraction;
min clips to the document bounds), the line slices are joined with
newlines and stripped (src/RegScrapper.py lines 120-123). -/
def chunk_of (old_lines new_lines : List String) (context_lines : Nat) (op : Opcode) :
    String × String :=
  let i1c := op.i1 - context_lines
  let i2c := min old_lines.length (op.i2 + context_lines)
  let j1c := op.j1 - context_lines
  let j2c := min new_lines.length (op.j2 + context_lines)
  (pyStrip (joinLinesNL ((old_lines.drop i1c).take (i2c - i1c))),
   pyStrip (joinLinesNL ((new_lines.drop j1c).take (j2c - j1c))))

/-- The loop body of extract_changed_chunks: equal opcodes are skipped and
a changed block is kept only when the combined length of its two slices
reaches min_len (src/RegScrapper.py lines 117-125). -/
def qualifying_chunk (old_lines new_lines : List String) (context_lines min_len : Nat)
    (op : Opcode) : Option (String × String) :=
  if op.tag = "equal" then none
  else
    let p := chunk_of old_lines new_lines context_lines op
    if min_len ≤ p.1.length + p.2.length then some p else none

/-- extract_changed_chunks (src/RegScrapper.py lines 111-126): collect the
qualifying chunk pairs in opcode order; when none qualify, fall back to
the single pair of the two 4000-character leading slices
(`chunks or [(old[:4000], new[:4000])]`, line 126). -/
def extract_changed_chunks (old new : String) (opcodes : List Opcode)
    (context_lines min_len : Nat) : List (String × String) :=
  match opcodes.filterMap
      (qualifying_chunk (splitlines old) (splitlines new) context_lines min_len) with
  | [] => [(pyTake old 4000, pyTake new 4000)]
  | c :: rest => c :: rest

/-- evaluate_change (src/openAIAPI.py lines 96-107): classify each
extracted pair independently with ask (the ask_ai call, abstracted), then
aggregate: meaningful when any pair is, regeneration required when any
pair requests it or the aggregate is meaningful. -/
def evaluate_change (ask : String → String → Dict) (old_text new_text : String)
    (opcodes : List Opcode) : Dict :=
  let results := (extract_changed_chunks old_text new_text opcodes 3 200).map (fun p => ask p.1 p.2)
  let meaningful := results.any (fun r => pyGetTruthy r "is_meaningful_change")
  let regen := results.any (fun r => pyGetTruthy r "regeneration_required")
  [("is_meaningful_change", JVal.bool meaningful),
   ("regeneration_required", JVal.bool (regen || meaningful)),
   ("chunks", JVal.arr (results.map JVal.obj))]

/-!
Orchestrator main loop (src/RegScrapper.py lines 204-212): iterate the
configured sources; scrape_one runs inside try/except, so an exception is
caught and logged and the loop moves on; time.sleep(pause_sec) runs after
every source. The loop is modelled as the trace of its observable events.
-/

/-- An observable event of one main-loop iteration. -/
inductive Event where
  | attempted (title url : String)
  | errorLogged (url msg : String)
  | slept (pause : Nat)
deriving DecidableEq

/-- Extract the source attempted by an event, if it is an attempt. -/
def attemptedOf : Event → Option (String × String)
  | .attempted t u => some (t, u)
  | _ => none

/-- main (src/RegScrapper.py lines 204-212): for each (title, url,
category, lang) in order, attempt scrape_one; outcome abstracts whether
scrape_one raises for that source (Except.error carries the exception
message, printed by the except branch); then sleep the fixed pacing
delay. -/
def mainLoop (outcome : String × String × String × String → Except String Unit) (pause : Nat) :
    List (String × String × String × String) → List Event
  | [] => []
  | s :: rest =>
      (Event.attempted s.1 s.2.1 ::
        (match outcome s with
         | Except.ok _ => []
         | Except.error e => [Event.errorLogged s.2.1 e]))
      ++ Event.slept pause :: mainLoop outcome pause rest

/-!
Text normalizer (clean_text, src/RegScrapper.py lines 39-60).
The BeautifulSoup chrome stripping and visible-text extraction (lines
40-48) is a library call, abstracted as the extract parameter; everything
from line 50 on — the two whitespace regexes and the date-modified line
filter — is embedded character by character.
-/

/-- Horizontal whitespace, the character class of re.sub(r"[ \t]+", " "). -/
def isHW (c : Char) : Bool :=
  c = ' ' || c = '\t'

/-- re.sub(r"[ \t]+", " ", text): each maximal run of spaces and tabs
becomes one space. prev records whether the previous character belonged
to a run. -/
def collapseHWAux : Bool → List Char → List Char
  | _, [] => []
  | prev, c :: cs =>
      if isHW c then
        if prev then collapseHWAux true cs
        else ' ' :: collapseHWAux true cs
      else c :: collapseHWAux false cs

/-- Collapse horizontal whitespace runs in a character list. -/
def collapseHW (l : List Char) : List Char :=
  collapseHWAux false l

/-- re.sub(r"\n\x7b3,\x7d", "\n\n", text): n counts the pending newline run;
a run of three or more newlines is emitted as exactly two. -/
def collapseNLAux : Nat → List Char → List Char
  | n, [] => List.replicate (min n 2) '\n'
  | n, c :: cs =>
      if c = '\n' then collapseNLAux (n + 1) cs
      else List.replicate (min n 2) '\n' ++ c :: collapseNLAux 0 cs

/-- Collapse newline runs of length three or more to two. -/
def collapseNL (l : List Char) : List Char :=
  collapseNLAux 0 l

/-- Case-insensitive literal match: consumes the pattern (given in
lowercase) from the head of the input, comparing lowercased characters;
returns the rest of the input on success. -/
def matchCI : List Char → List Char → Option (List Char)
  | [], rest => some rest
  | _ :: _, [] => none
  | p :: ps, c :: cs => if c.toLower = p then matchCI ps cs else none

/-- Consume the \s* of the pattern (Python whitespace). -/
def dropPyWS (l : List Char) : List Char :=
  l.dropWhile isPySpace

/-- Consume one expected literal character. -/
def matchChar (ch : Char) : List Char → Option (List Char)
  | [] => none
  | c :: cs => if c = ch then some cs else none

/-- Consume exactly n decimal digits. -/
def matchDigits : Nat → List Char → Option (List Char)
  | 0, cs => some cs
  | _ + 1, [] => none
  | n + 1, c :: cs => if c.isDigit then matchDigits n cs else none

/-- Match one alternative of the line pattern of clean_text line 57:
"Date " then the keyword, then \s*, a colon, \s*, and a YYYY-MM-DD date,
anchored at the start of the line, case-insensitively. -/
def matchDatePattern (kw : String) (line : List Char) : Bool :=
  match matchCI ("date " ++ kw).data line with
  | none => false
  | some r1 =>
    match matchChar ':' (dropPyWS r1) with
    | none => false
    | some r2 =>
      match matchDigits 4 (dropPyWS r2) with
      | none => false
      | some r3 =>
        match matchChar '-' r3 with
        | none => false
        | some r4 =>
          match matchDigits 2 r4 with
          | none => false
          | some r5 =>
            match matchChar '-' r5 with
            | none => false
            | some r6 => (matchDigits 2 r6).isSome

/-- The per-line test of clean_text (src/RegScrapper.py line 57):
re.search("^Date (modified|updated)\s*:\s*" then YYYY-MM-DD, IGNORECASE). -/
def is_date_modified_lineL (line : List Char) : Bool :=
  matchDatePattern "modified" line || matchDatePattern "updated" line

/-- clean_text after the BeautifulSoup extraction (src/RegScrapper.py
lines 50-60): collapse horizontal-whitespace runs to one space, collapse
runs of three or more newlines to two, drop the lines matching the
date-modified pattern, join the remaining lines with newlines and strip
the result. -/
def clean_text_body (text : String) : String :=
  pyStrip (String.mk (joinNL
    ((splitlinesL (collapseNL (collapseHW text.data))).filter
      (fun l => !(is_date_modified_lineL l)))))

/-- clean_text (src/RegScrapper.py lines 39-60): extract abstracts the
BeautifulSoup chrome stripping and main-region text extraction of lines
40-48; the rest is clean_text_body. -/
def clean_text (extract : String → String) (html : String) : String :=
  clean_text_body (extract html)

/-- Whether the last character of a list is a newline. -/
def lastIsNL : List Char → Bool
  | [] => false
  | [c] => c = '\n'
  | _ :: c :: cs => lastIsNL (c :: cs)

/-!
HTTP fetch (fetch_html, src/RegScrapper.py lines 62-65, which calls the
requests library's Response.raise_for_status) and its effect on one
orchestrated cycle.
-/

/-- An HTTP response as seen by the scraper: final status code and body. -/
structure HttpResponse where
  status : Nat
  body : String

/-- Response.raise_for_status of the requests library (called at
src/RegScrapper.py line 64): it raises HTTPError exactly for 4xx client
errors and 5xx server errors (400 ≤ status < 600); informational (1xx)
and redirect (3xx) statuses outside the 2xx range do not raise. -/
def raise_for_status (r : HttpResponse) : Except String Unit :=
  if 400 ≤ r.status ∧ r.status < 600 then Except.error "HTTPError" else Except.ok ()

/-- fetch_html (src/RegScrapper.py lines 62-65): raise_for_status, then
return the response text. -/
def fetch_html (r : HttpResponse) : Except String String :=
  match raise_for_status r with
  | Except.error e => Except.error e
  | Except.ok _ => Except.ok r.body

/-- One orchestrated cycle for one source including the fetch
(src/RegScrapper.py lines 155-212): an exception from fetch_html
propagates out of scrape_one to main's per-source try/except, which logs
it; no store call is reached, so the store is returned unchanged. -/
def scrape_one_cycle (classify : String → String → Dict) (hash : String → String)
    (extract : String → String) (title url category lang : String) (st : Store)
    (r : HttpResponse) (dry_run : Bool) (now : Nat) : Store × Option String :=
  match fetch_html r with
  | Except.error e => (st, some e)
  | Except.ok html =>
      (scrape_one classify hash title url category lang st (clean_text extract html) dry_run now,
       none)

/-- C1: a completion response that is not parseable as JSON yields the
fail-closed verdict: is_meaningful_change is stored as false (so the verdict
is never meaningful), the regeneration_required field reads as false, and
the raw response text is preserved under the "raw" key. -/
theorem summarize_meaningful_diff_fail_closed
    (llm : String → String) (jsonLoads : String → Option Dict) (old_text new_text : String)
    (hfail : jsonLoads (llm (build_prompt old_text new_text)) = none) :
    dictGet (summarize_meaningful_diff llm jsonLoads old_text new_text) "is_meaningful_change"
        = some (JVal.bool false)
    ∧ pyGetTruthy (summarize_meaningful_diff llm jsonLoads old_text new_text) "is_meaningful_change"
        = false
    ∧ pyGetTruthy (summarize_meaningful_diff llm jsonLoads old_text new_text) "regeneration_required"
        = false
    ∧ dictGet (summarize_meaningful_diff llm jsonLoads old_text new_text) "raw"
        = some (JVal.str (llm (build_prompt old_text new_text))) := by
  simp only [summarize_meaningful_diff]
  rw [hfail]
  refine ⟨rfl, rfl, rfl, rfl⟩

/-- C1 witness: a concrete non-JSON response ("not json at all") goes through
the fail-closed branch. -/
theorem summarize_meaningful_diff_fail_closed_witness :
    dictGet (summarize_meaningful_diff (fun _ => "not json at all") (fun _ => none) "old page" "new page")
        "is_meaningful_change" = some (JVal.bool false)
    ∧ pyGetTruthy (summarize_meaningful_diff (fun _ => "not json at all") (fun _ => none) "old page" "new page")
        "is_meaningful_change" = false
    ∧ pyGetTruthy (summarize_meaningful_diff (fun _ => "not json at all") (fun _ => none) "old page" "new page")
        "regeneration_required" = false
    ∧ dictGet (summarize_meaningful_diff (fun _ => "not json at all") (fun _ => none) "old page" "new page")
        "raw" = some (JVal.str "not json at all") :=
  summarize_meaningful_diff_fail_closed (fun _ => "not json at all") (fun _ => none)
    "old page" "new page" rfl

/-- C10: the classification prompt, and hence the verdict, depends only on
the first 12,000 characters of each text: inputs that agree on those
prefixes produce the identical prompt and identical verdict. -/
theorem classification_prompt_truncation
    (llm : String → String) (jsonLoads : String → Option Dict)
    (old1 new1 old2 new2 : String)
    (hold : pyTake old1 12000 = pyTake old2 12000)
    (hnew : pyTake new1 12000 = pyTake new2 12000) :
    build_prompt old1 new1 = build_prompt old2 new2
    ∧ summarize_meaningful_diff llm jsonLoads old1 new1
        = summarize_meaningful_diff llm jsonLoads old2 new2 := by
  have hp : build_prompt old1 new1 = build_prompt old2 new2 := by
    unfold build_prompt
    rw [hold, hnew]
  refine ⟨hp, ?_⟩
  simp only [summarize_meaningful_diff]
  rw [hp]

/-- C10 witness: concrete texts with equal 12,000-character prefixes yield the
same prompt and the same verdict. -/
theorem classification_prompt_truncation_witness :
    build_prompt "old regulation text" "new regulation text"
        = build_prompt "old regulation text" "new regulation text"
    ∧ summarize_meaningful_diff (fun _ => "resp") (fun _ => none) "old regulation text" "new regulation text"
        = summarize_meaningful_diff (fun _ => "resp") (fun _ => none) "old regulation text" "new regulation text" :=
  classification_prompt_truncation (fun _ => "resp") (fun _ => none)
    "old regulation text" "new regulation text" "old regulation text" "new regulation text" rfl rfl

/-- C3: a non-dry-run cycle on a source with no prior record seeds the
store: exactly one version row is created, numbered 1, holding the
normalized content and its fingerprint with no verdict, and the source row
is created with the current-version pointer at 1. -/
theorem seed_creates_version_one
    (classify : String → String → Dict) (hash : String → String)
    (title url category lang text : String) (now : Nat) (st : Store)
    (hreg : st.reg = none) (hver : st.versions = []) :
    (scrape_one classify hash title url category lang st text false now).versions
        = [⟨1, text, hash text, none⟩]
    ∧ (scrape_one classify hash title url category lang st text false now).reg
        = some ⟨title, url, lang, category, text, hash text, now, some now, 1⟩ := by
  simp [scrape_one, upsert_page, hreg, hver]

/-- C3 witness: seeding from the empty store at a concrete page. -/
theorem seed_creates_version_one_witness :
    (scrape_one (fun _ _ => []) (fun s => s) "FINTRAC Intro" "https://fintrac-canafe.canada.ca/intro-eng"
        "General" "en" Store.empty "page text" false 7).versions
        = [⟨1, "page text", "page text", none⟩]
    ∧ (scrape_one (fun _ _ => []) (fun s => s) "FINTRAC Intro" "https://fintrac-canafe.canada.ca/intro-eng"
        "General" "en" Store.empty "page text" false 7).reg
        = some ⟨"FINTRAC Intro", "https://fintrac-canafe.canada.ca/intro-eng", "en", "General",
                "page text", "page text", 7, some 7, 1⟩ :=
  seed_creates_version_one (fun _ _ => []) (fun s => s) "FINTRAC Intro"
    "https://fintrac-canafe.canada.ca/intro-eng" "General" "en" "page text" 7 Store.empty rfl rfl

/-- C4: when the fetched text's fingerprint equals the stored one, the
non-dry-run cycle writes no new version row, leaves content, fingerprint,
current-version pointer and last_updated unchanged, advances only the
last-fetch timestamp, and does not invoke the classifier. -/
theorem unchanged_fetch_frame
    (classify : String → String → Dict) (hash : String → String)
    (title url category lang text : String) (now : Nat) (st : Store) (ex : SourceRec)
    (hreg : st.reg = some ex) (hhash : hash text = ex.content_hash) :
    (scrape_one classify hash title url category lang st text false now).versions
        = st.versions
    ∧ (scrape_one classify hash title url category lang st text false now).reg
        = some
          { ex with
              title := title, url := url, lang := lang, category := category,
              content := ex.content, content_hash := ex.content_hash, last_fetched := now }
    ∧ (scrape_one classify hash title url category lang st text false now).classifier_calls
        = st.classifier_calls := by
  simp [scrape_one, upsert_page, hreg, hhash.symm]

/-- C4 witness: a second fetch of identical text only advances the
last-fetch timestamp. -/
theorem unchanged_fetch_frame_witness :
    (scrape_one (fun _ _ => []) (fun s => s) "t" "u" "c" "en"
        ⟨some ⟨"t", "u", "en", "c", "page text", "page text", 7, some 7, 1⟩,
         [⟨1, "page text", "page text", none⟩], 0⟩ "page text" false 9).versions
        = [⟨1, "page text", "page text", none⟩]
    ∧ (scrape_one (fun _ _ => []) (fun s => s) "t" "u" "c" "en"
        ⟨some ⟨"t", "u", "en", "c", "page text", "page text", 7, some 7, 1⟩,
         [⟨1, "page text", "page text", none⟩], 0⟩ "page text" false 9).reg
        = some ⟨"t", "u", "en", "c", "page text", "page text", 9, some 7, 1⟩
    ∧ (scrape_one (fun _ _ => []) (fun s => s) "t" "u" "c" "en"
        ⟨some ⟨"t", "u", "en", "c", "page text", "page text", 7, some 7, 1⟩,
         [⟨1, "page text", "page text", none⟩], 0⟩ "page text" false 9).classifier_calls
        = 0 :=
  unchanged_fetch_frame (fun _ _ => []) (fun s => s) "t" "u" "c" "en" "page text" 9
    ⟨some ⟨"t", "u", "en", "c", "page text", "page text", 7, some 7, 1⟩,
     [⟨1, "page text", "page text", none⟩], 0⟩
    ⟨"t", "u", "en", "c", "page text", "page text", 7, some 7, 1⟩ rfl rfl

lemma scrape_one_step (classify : String → String → Dict) (hash : String → String)
    (title url category lang : String) (st : Store) (fp : Option String)
    (text : String) (now : Nat) (hinv : StoreInv st fp) :
    StoreInv (scrape_one classify hash title url category lang st text false now) (some (hash text))
    ∧ st.versions <+: (scrape_one classify hash title url category lang st text false now).versions
    ∧ (scrape_one classify hash title url category lang st text false now).versions.length
        = st.versions.length + cycle_increment hash fp text := by
  obtain ⟨hmap, hrest⟩ := hinv
  rcases hr : st.reg with _ | ex
  · rw [hr] at hrest
    obtain ⟨hv, hfp⟩ := hrest
    subst hfp
    simp only [scrape_one, upsert_page, hr, hv, Bool.false_eq_true, if_false]
    exact ⟨⟨by simp, by simp⟩, by simp, by simp [cycle_increment]⟩
  · rw [hr] at hrest
    obtain ⟨hcv, hfp⟩ := hrest
    subst hfp
    by_cases hsame : ex.content_hash = hash text
    · simp only [scrape_one, upsert_page, hr, hsame, beq_self_eq_true, if_true,
        Bool.false_eq_true, if_false]
      refine ⟨⟨hmap, ⟨hcv, rfl⟩⟩, List.prefix_refl _, ?_⟩
      simp [cycle_increment, hsame]
    · have hbeq : (ex.content_hash == hash text) = false := by
        simpa using hsame
      simp only [scrape_one, upsert_with_version, hr, hbeq, Bool.false_eq_true, if_false]
      refine ⟨⟨?_, ?_⟩, List.prefix_append _ _, ?_⟩
      · simp only [List.map_append, hmap, List.length_append, List.map_cons, List.map_nil,
          List.length_cons, List.length_nil, hcv]
        have hc := List.range'_1_concat 1 st.versions.length
        rw [hc]
        simp [Nat.add_comm]
      · simp [hcv]
      · simp [cycle_increment, hsame]

lemma run_cycles_inv (classify : String → String → Dict) (hash : String → String)
    (title url category lang : String) :
    ∀ (cycles : List (String × Nat)) (st : Store) (fp : Option String), StoreInv st fp →
      (∃ fp2, StoreInv (run_cycles classify hash title url category lang st cycles) fp2)
      ∧ st.versions <+: (run_cycles classify hash title url category lang st cycles).versions
      ∧ (run_cycles classify hash title url category lang st cycles).versions.length
          = st.versions.length + changed_count hash fp cycles := by
  intro cycles
  induction cycles with
  | nil =>
      intro st fp hinv
      exact ⟨⟨fp, hinv⟩, List.prefix_refl _, by simp [run_cycles, changed_count]⟩
  | cons c rest ih =>
      intro st fp hinv
      have hstep := scrape_one_step classify hash title url category lang st fp c.1 c.2 hinv
      have hrun : run_cycles classify hash title url category lang st (c :: rest)
          = run_cycles classify hash title url category lang
              (scrape_one classify hash title url category lang st c.1 false c.2) rest := by
        simp [run_cycles]
      have hrest := ih (scrape_one classify hash title url category lang st c.1 false c.2)
        (some (hash c.1)) hstep.1
      refine ⟨?_, ?_, ?_⟩
      · rw [hrun]; exact hrest.1
      · rw [hrun]; exact hstep.2.1.trans hrest.2.1
      · rw [hrun, hrest.2.2, hstep.2.2]
        simp only [changed_count]
        omega

/-- C2: starting from no record, after any sequence of fetch cycles the
stored version numbers for the source are exactly 1..M in order (no gaps,
no repeats), where M is the number of cycles on which the content changed
including the seed; the current-version pointer equals M (the highest
stored number); and the history is append-only — the rows present after
any prefix of the cycles persist unchanged in the final history. -/
theorem version_numbers_contiguous (classify : String → String → Dict) (hash : String → String)
    (title url category lang : String) (cycles : List (String × Nat)) :
    (run_cycles classify hash title url category lang Store.empty cycles).versions.map (fun v => v.version)
        = List.range' 1 (changed_count hash none cycles)
    ∧ (∀ r, (run_cycles classify hash title url category lang Store.empty cycles).reg = some r →
        r.current_version = changed_count hash none cycles)
    ∧ (∀ pre suf, cycles = pre ++ suf →
        (run_cycles classify hash title url category lang Store.empty pre).versions
          <+: (run_cycles classify hash title url category lang Store.empty cycles).versions) := by
  have hempty : StoreInv Store.empty none := by
    refine ⟨by simp [Store.empty], by simp [Store.empty]⟩
  have h := run_cycles_inv classify hash title url category lang cycles Store.empty none hempty
  have hlen : (run_cycles classify hash title url category lang Store.empty cycles).versions.length
      = changed_count hash none cycles := by
    have := h.2.2
    simpa [Store.empty] using this
  obtain ⟨⟨fp2, hmap, hreg⟩, _, _⟩ := h
  refine ⟨by rw [hmap, hlen], ?_, ?_⟩
  · intro r hr
    rw [hr] at hreg
    simpa [hlen] using hreg.1
  · intro pre suf hps
    have hpre := run_cycles_inv classify hash title url category lang pre Store.empty none hempty
    obtain ⟨⟨fp3, hinv3⟩, _, _⟩ := hpre
    have hsuf := run_cycles_inv classify hash title url category lang suf
      (run_cycles classify hash title url category lang Store.empty pre) fp3 hinv3
    have happ : run_cycles classify hash title url category lang Store.empty cycles
        = run_cycles classify hash title url category lang
            (run_cycles classify hash title url category lang Store.empty pre) suf := by
      rw [hps]
      simp [run_cycles, List.foldl_append]
    rw [happ]
    exact hsuf.2.1

/-- C2 witness: three cycles where the second repeats the first text and
the third changes it give versions 1, 2, a pointer at 2, and an
append-only history across the prefix after one cycle. -/
theorem version_numbers_contiguous_witness :
    (run_cycles (fun _ _ => []) (fun s => s) "t" "u" "c" "en" Store.empty
        [("a", 1), ("a", 2), ("b", 3)]).versions.map (fun v => v.version)
      = List.range' 1 (changed_count (fun s => s) none [("a", 1), ("a", 2), ("b", 3)])
    ∧ (⟨"t", "u", "en", "c", "b", "b", 3, some 3, 2⟩ : SourceRec).current_version
      = changed_count (fun s => s) none [("a", 1), ("a", 2), ("b", 3)]
    ∧ (run_cycles (fun _ _ => []) (fun s => s) "t" "u" "c" "en" Store.empty
        [("a", 1)]).versions
      <+: (run_cycles (fun _ _ => []) (fun s => s) "t" "u" "c" "en" Store.empty
        [("a", 1), ("a", 2), ("b", 3)]).versions := by
  have h := version_numbers_contiguous (fun _ _ => []) (fun s => s) "t" "u" "c" "en"
    [("a", 1), ("a", 2), ("b", 3)]
  exact ⟨h.1, h.2.1 ⟨"t", "u", "en", "c", "b", "b", 3, some 3, 2⟩ rfl,
    h.2.2 [("a", 1)] [("a", 2), ("b", 3)] rfl⟩

/-- C5: every emitted pair comes from a non-equal opcode and meets the
combined-length threshold (unless the result is the fallback pair); when
no block meets the threshold the result is exactly the one fallback pair
built from the leading portions of the full texts; and the result is never
empty. -/
theorem extract_changed_chunks_threshold (old new : String) (opcodes : List Opcode)
    (context_lines min_len : Nat) :
    extract_changed_chunks old new opcodes context_lines min_len ≠ []
    ∧ (∀ p ∈ extract_changed_chunks old new opcodes context_lines min_len,
        (∃ op ∈ opcodes, op.tag ≠ "equal"
          ∧ p = chunk_of (splitlines old) (splitlines new) context_lines op
          ∧ min_len ≤ p.1.length + p.2.length)
        ∨ extract_changed_chunks old new opcodes context_lines min_len
            = [(pyTake old 4000, pyTake new 4000)])
    ∧ ((∀ op ∈ opcodes, op.tag ≠ "equal" →
          (chunk_of (splitlines old) (splitlines new) context_lines op).1.length
            + (chunk_of (splitlines old) (splitlines new) context_lines op).2.length < min_len) →
        extract_changed_chunks old new opcodes context_lines min_len
          = [(pyTake old 4000, pyTake new 4000)]) := by
  refine ⟨?_, ?_, ?_⟩
  · unfold extract_changed_chunks
    rcases he : opcodes.filterMap
        (qualifying_chunk (splitlines old) (splitlines new) context_lines min_len) with _ | ⟨c, rest⟩
    · simp
    · simp
  · intro p hp
    rcases he : opcodes.filterMap
        (qualifying_chunk (splitlines old) (splitlines new) context_lines min_len) with _ | ⟨c, rest⟩
    · right
      unfold extract_changed_chunks
      rw [he]
    · left
      have hp2 : p ∈ opcodes.filterMap
          (qualifying_chunk (splitlines old) (splitlines new) context_lines min_len) := by
        rw [he]
        unfold extract_changed_chunks at hp
        rw [he] at hp
        exact hp
      obtain ⟨op, hop, hq⟩ := List.mem_filterMap.mp hp2
      refine ⟨op, hop, ?_⟩
      unfold qualifying_chunk at hq
      by_cases heq : op.tag = "equal"
      · simp [heq] at hq
      · simp only [heq, if_false] at hq
        by_cases hl : min_len ≤ (chunk_of (splitlines old) (splitlines new) context_lines op).1.length
            + (chunk_of (splitlines old) (splitlines new) context_lines op).2.length
        · simp only [hl, if_true, Option.some.injEq] at hq
          exact ⟨heq, hq.symm, hq ▸ hl⟩
        · simp [hl] at hq
  · intro hall
    unfold extract_changed_chunks
    have hnil : opcodes.filterMap
        (qualifying_chunk (splitlines old) (splitlines new) context_lines min_len) = [] := by
      rw [List.filterMap_eq_nil_iff]
      intro op hop
      unfold qualifying_chunk
      by_cases heq : op.tag = "equal"
      · simp [heq]
      · have hlt := hall op hop heq
        have hnle : ¬ min_len ≤ (chunk_of (splitlines old) (splitlines new) context_lines op).1.length
            + (chunk_of (splitlines old) (splitlines new) context_lines op).2.length := by omega
        simp [heq, hnle]
    rw [hnil]

/-- C5 witness: a single short edit ("short" to "edit") is below the
200-character threshold, so the extractor returns exactly the fallback
pair of leading slices. -/
theorem extract_changed_chunks_threshold_witness :
    extract_changed_chunks "short" "edit" [⟨"replace", 0, 1, 0, 1⟩] 3 200
      = [("short", "edit")] := by
  have h := (extract_changed_chunks_threshold "short" "edit" [⟨"replace", 0, 1, 0, 1⟩] 3 200).2.2
    (by decide)
  exact h

lemma any_map_pairs (l : List (String × String)) (f : String → String → Dict) (k : String) :
    ((l.map (fun p => f p.1 p.2)).any (fun r => pyGetTruthy r k) = true)
      ↔ ∃ p ∈ l, pyGetTruthy (f p.1 p.2) k = true := by
  induction l with
  | nil => simp
  | cons a l ih =>
      simp only [List.map_cons, List.any_cons, Bool.or_eq_true, ih, List.mem_cons]
      constructor
      · rintro (h | ⟨p, hp, h⟩)
        · exact ⟨a, Or.inl rfl, h⟩
        · exact ⟨p, Or.inr hp, h⟩
      · rintro ⟨p, hp | hp, h⟩
        · subst hp
          exact Or.inl h
        · exact Or.inr ⟨p, hp, h⟩

/-- C6: the aggregate verdict is meaningful iff some classified pair is
meaningful, and requires regeneration iff some pair requests it or the
aggregate is meaningful. -/
theorem evaluate_change_aggregate (ask : String → String → Dict) (old_text new_text : String)
    (opcodes : List Opcode) :
    (pyGetTruthy (evaluate_change ask old_text new_text opcodes) "is_meaningful_change" = true
      ↔ ∃ p ∈ extract_changed_chunks old_text new_text opcodes 3 200,
          pyGetTruthy (ask p.1 p.2) "is_meaningful_change" = true)
    ∧ (pyGetTruthy (evaluate_change ask old_text new_text opcodes) "regeneration_required" = true
      ↔ ((∃ p ∈ extract_changed_chunks old_text new_text opcodes 3 200,
            pyGetTruthy (ask p.1 p.2) "regeneration_required" = true)
          ∨ pyGetTruthy (evaluate_change ask old_text new_text opcodes) "is_meaningful_change"
              = true)) := by
  have e1 : pyGetTruthy (evaluate_change ask old_text new_text opcodes) "is_meaningful_change"
      = ((extract_changed_chunks old_text new_text opcodes 3 200).map (fun p => ask p.1 p.2)).any
          (fun r => pyGetTruthy r "is_meaningful_change") := rfl
  have e2 : pyGetTruthy (evaluate_change ask old_text new_text opcodes) "regeneration_required"
      = (((extract_changed_chunks old_text new_text opcodes 3 200).map (fun p => ask p.1 p.2)).any
          (fun r => pyGetTruthy r "regeneration_required")
        || ((extract_changed_chunks old_text new_text opcodes 3 200).map (fun p => ask p.1 p.2)).any
          (fun r => pyGetTruthy r "is_meaningful_change")) := rfl
  constructor
  · rw [e1]
    exact any_map_pairs _ _ _
  · rw [e2, e1, Bool.or_eq_true]
    exact or_congr (any_map_pairs _ _ _) Iff.rfl

/-- C6 witness: with a classifier that marks the pair meaningful and not
regeneration-requesting, the aggregate is meaningful and (by propagation)
regeneration-required. -/
theorem evaluate_change_aggregate_witness :
    pyGetTruthy (evaluate_change (fun _ _ => [("is_meaningful_change", JVal.bool true)])
        "old text" "new text" []) "is_meaningful_change" = true
    ∧ pyGetTruthy (evaluate_change (fun _ _ => [("is_meaningful_change", JVal.bool true)])
        "old text" "new text" []) "regeneration_required" = true := by
  have h := evaluate_change_aggregate (fun _ _ => [("is_meaningful_change", JVal.bool true)])
    "old text" "new text" []
  have hmem : ("old text", "new text") ∈ extract_changed_chunks "old text" "new text" [] 3 200 := by
    unfold extract_changed_chunks
    decide
  constructor
  · exact h.1.mpr ⟨("old text", "new text"), hmem, rfl⟩
  · exact h.2.mpr (Or.inr (h.1.mpr ⟨("old text", "new text"), hmem, rfl⟩))

/-- C7: every configured source is attempted in order no matter which
sources raise; a raised exception is logged and does not abort the run;
and the fixed pacing delay is slept once per source (hence between any
two consecutive sources). -/
theorem main_loop_isolation (outcome : String × String × String × String → Except String Unit)
    (pause : Nat) (sources : List (String × String × String × String)) :
    (mainLoop outcome pause sources).filterMap attemptedOf
        = sources.map (fun s => (s.1, s.2.1))
    ∧ (∀ s ∈ sources, ∀ e, outcome s = Except.error e →
        Event.errorLogged s.2.1 e ∈ mainLoop outcome pause sources)
    ∧ (mainLoop outcome pause sources).countP (fun ev => decide (ev = Event.slept pause))
        = sources.length := by
  induction sources with
  | nil =>
      refine ⟨rfl, ?_, rfl⟩
      intro s hs
      cases hs
  | cons x rest ih =>
      rcases ho : outcome x with e | u
      · have hm : mainLoop outcome pause (x :: rest)
            = Event.attempted x.1 x.2.1 :: Event.errorLogged x.2.1 e
                :: Event.slept pause :: mainLoop outcome pause rest := by
          simp [mainLoop, ho]
        rw [hm]
        refine ⟨?_, ?_, ?_⟩
        · simp only [List.filterMap_cons, attemptedOf, List.map_cons]
          rw [ih.1]
        · intro s hs e2 he
          rcases List.mem_cons.mp hs with hsx | hsr
          · subst hsx
            rw [ho] at he
            have he2 : e = e2 := by injection he
            subst he2
            exact List.mem_cons_of_mem _ (List.mem_cons_self _ _)
          · exact List.mem_cons_of_mem _ (List.mem_cons_of_mem _
              (List.mem_cons_of_mem _ (ih.2.1 s hsr e2 he)))
        · simp [List.countP_cons, ih.2.2]
      · have hm : mainLoop outcome pause (x :: rest)
            = Event.attempted x.1 x.2.1 :: Event.slept pause :: mainLoop outcome pause rest := by
          simp [mainLoop, ho]
        rw [hm]
        refine ⟨?_, ?_, ?_⟩
        · simp only [List.filterMap_cons, attemptedOf, List.map_cons]
          rw [ih.1]
        · intro s hs e2 he
          rcases List.mem_cons.mp hs with hsx | hsr
          · subst hsx
            rw [ho] at he
            cases he
          · exact List.mem_cons_of_mem _ (List.mem_cons_of_mem _ (ih.2.1 s hsr e2 he))
        · simp [List.countP_cons, ih.2.2]

/-- C7 witness: with the first of two sources raising, both sources are
attempted, the error is logged, and the pacing delay is slept twice. -/
theorem main_loop_isolation_witness :
    (mainLoop (fun s => if s.2.1 = "u1" then Except.error "boom" else Except.ok ()) 1
        [("t1", "u1", "General", "en"), ("t2", "u2", "MSB", "en")]).filterMap attemptedOf
      = [("t1", "u1"), ("t2", "u2")]
    ∧ Event.errorLogged "u1" "boom"
        ∈ mainLoop (fun s => if s.2.1 = "u1" then Except.error "boom" else Except.ok ()) 1
            [("t1", "u1", "General", "en"), ("t2", "u2", "MSB", "en")]
    ∧ (mainLoop (fun s => if s.2.1 = "u1" then Except.error "boom" else Except.ok ()) 1
        [("t1", "u1", "General", "en"), ("t2", "u2", "MSB", "en")]).countP
          (fun ev => decide (ev = Event.slept 1)) = 2 := by
  have h := main_loop_isolation
    (fun s => if s.2.1 = "u1" then Except.error "boom" else Except.ok ()) 1
    [("t1", "u1", "General", "en"), ("t2", "u2", "MSB", "en")]
  exact ⟨h.1, h.2.1 ("t1", "u1", "General", "en") (by simp) "boom" rfl, h.2.2⟩

lemma isHW_newline : isHW '\n' = false := by decide

lemma collapseHWAux_newline (b a : List Char) :
    ∀ st : Bool, collapseHWAux st (a ++ '\n' :: b)
      = collapseHWAux st a ++ '\n' :: collapseHWAux false b := by
  induction a with
  | nil =>
      intro st
      simp [collapseHWAux, isHW_newline]
  | cons c cs ih =>
      intro st
      cases st <;> by_cases hc : isHW c = true <;>
        simp [collapseHWAux, hc, ih]

lemma collapseHWAux_mem (l : List Char) :
    ∀ (st : Bool) (c : Char), c ∈ collapseHWAux st l → c = ' ' ∨ c ∈ l := by
  induction l with
  | nil =>
      intro st c hc
      simp [collapseHWAux] at hc
  | cons x xs ih =>
      intro st c hc
      by_cases hx : isHW x = true
      · cases st with
        | true =>
            simp only [collapseHWAux, hx, if_true] at hc
            rcases ih true c hc with h | h
            · exact Or.inl h
            · exact Or.inr (List.mem_cons_of_mem _ h)
        | false =>
            simp only [collapseHWAux, hx, if_true] at hc
            rcases List.mem_cons.mp hc with h | h
            · exact Or.inl h
            · rcases ih true c h with h2 | h2
              · exact Or.inl h2
              · exact Or.inr (List.mem_cons_of_mem _ h2)
      · simp only [collapseHWAux, hx, Bool.false_eq_true, if_false] at hc
        rcases List.mem_cons.mp hc with h | h
        · rw [h]
          exact Or.inr (List.mem_cons_self _ _)
        · rcases ih false c h with h2 | h2
          · exact Or.inl h2
          · exact Or.inr (List.mem_cons_of_mem _ h2)

lemma collapseHW_noNL (l : List Char) (h : '\n' ∉ l) (st : Bool) :
    '\n' ∉ collapseHWAux st l := by
  intro hc
  rcases collapseHWAux_mem l st '\n' hc with h2 | h2
  · exact absurd h2 (by decide)
  · exact h h2

lemma lastIsNL_tail (c : Char) (l : List Char) (h : lastIsNL (c :: l) = false) :
    lastIsNL l = false := by
  cases l with
  | nil => rfl
  | cons y ys => exact h

lemma lastIsNL_append (A B : List Char) (hB : B ≠ []) :
    lastIsNL (A ++ B) = lastIsNL B := by
  induction A with
  | nil => rfl
  | cons a A ih =>
      have h1 : A ++ B ≠ [] := by
        intro h
        exact hB (List.append_eq_nil.mp h).2
      rcases hAB : A ++ B with _ | ⟨y, ys⟩
      · exact absurd hAB h1
      · rw [List.cons_append, hAB]
        show lastIsNL (y :: ys) = lastIsNL B
        rw [← hAB]
        exact ih

lemma collapseHWAux_false_ne_nil (c : Char) (cs : List Char) :
    collapseHWAux false (c :: cs) ≠ [] := by
  by_cases hc : isHW c = true <;> simp [collapseHWAux, hc]

lemma collapseHWAux_lastIsNL (l : List Char) :
    ∀ st, lastIsNL l = false → lastIsNL (collapseHWAux st l) = false := by
  induction l with
  | nil =>
      intro st _
      rfl
  | cons x xs ih =>
      intro st h
      have hxs : lastIsNL xs = false := lastIsNL_tail x xs h
      by_cases hx : isHW x = true
      · cases st with
        | true =>
            simpa [collapseHWAux, hx] using ih true hxs
        | false =>
            simp only [collapseHWAux, hx, if_true]
            rcases hW : collapseHWAux true xs with _ | ⟨w, ws⟩
            · decide
            · have hih := ih true hxs
              rw [hW] at hih
              exact hih
      · simp only [collapseHWAux, hx, Bool.false_eq_true, if_false]
        cases xs with
        | nil => exact h
        | cons y ys =>
            have hne := collapseHWAux_false_ne_nil y ys
            rcases hW : collapseHWAux false (y :: ys) with _ | ⟨w, ws⟩
            · exact absurd hW hne
            · have hih := ih false hxs
              rw [hW] at hih
              exact hih

lemma collapseNLAux_nl (n : Nat) (cs : List Char) :
    collapseNLAux n ('\n' :: cs) = collapseNLAux (n + 1) cs := rfl

lemma collapseNLAux_other (n : Nat) (c : Char) (cs : List Char) (hc : ¬ c = '\n') :
    collapseNLAux n (c :: cs) = List.replicate (min n 2) '\n' ++ c :: collapseNLAux 0 cs := by
  rw [collapseNLAux]
  simp [hc]

lemma collapseNLAux_noNL : ∀ (b : List Char), '\n' ∉ b →
    ∀ n, collapseNLAux n b = List.replicate (min n 2) '\n' ++ b := by
  intro b
  induction b with
  | nil =>
      intro _ n
      simp [collapseNLAux]
  | cons c cs ih =>
      intro hb n
      have hc : ¬ (c = '\n') := by
        intro h
        exact hb (by rw [h]; exact List.mem_cons_self _ _)
      have hcs : '\n' ∉ cs := fun h => hb (List.mem_cons_of_mem _ h)
      rw [collapseNLAux_other n c cs hc, ih hcs 0]
      simp

lemma collapseNLAux_ne_nil : ∀ (u : List Char) (n : Nat), u ≠ [] → collapseNLAux n u ≠ [] := by
  intro u
  induction u with
  | nil =>
      intro n h
      exact absurd rfl h
  | cons c cs ih =>
      intro n _
      by_cases hc : c = '\n'
      · subst hc
        rw [collapseNLAux_nl]
        cases cs with
        | nil =>
            intro hcontra
            have hlen := congrArg List.length hcontra
            simp only [collapseNLAux, List.length_replicate, List.length_nil] at hlen
            omega
        | cons d ds => exact ih (n + 1) (by simp)
      · rw [collapseNLAux_other n c cs hc]
        simp

lemma collapseNLAux_lastIsNL : ∀ (u : List Char) (n : Nat),
    u ≠ [] → lastIsNL u = false → lastIsNL (collapseNLAux n u) = false := by
  intro u
  induction u with
  | nil =>
      intro n h _
      exact absurd rfl h
  | cons c cs ih =>
      intro n _ hlast
      by_cases hc : c = '\n'
      · subst hc
        cases cs with
        | nil => exact absurd hlast (by decide)
        | cons d ds =>
            rw [collapseNLAux_nl]
            exact ih (n + 1) (by simp) (lastIsNL_tail _ _ hlast)
      · rw [collapseNLAux_other n c cs hc]
        rw [lastIsNL_append _ _ (by simp)]
        cases cs with
        | nil =>
            simpa [collapseNLAux] using hlast
        | cons d ds =>
            have hne := collapseNLAux_ne_nil (d :: ds) 0 (by simp)
            rcases hW : collapseNLAux 0 (d :: ds) with _ | ⟨w, ws⟩
            · exact absurd hW hne
            · have hih := ih 0 (by simp) (lastIsNL_tail _ _ hlast)
              rw [hW] at hih
              exact hih

lemma collapseNLAux_append (b : List Char) (hb : '\n' ∉ b) :
    ∀ (a : List Char) (n : Nat), (a = [] → n ≤ 1) → lastIsNL a = false →
      collapseNLAux n (a ++ '\n' :: b) = collapseNLAux n a ++ '\n' :: b := by
  intro a
  induction a with
  | nil =>
      intro n hn _
      have hn1 : n ≤ 1 := hn rfl
      rw [List.nil_append, collapseNLAux_nl, collapseNLAux_noNL b hb (n + 1)]
      have h2 : collapseNLAux n ([] : List Char) = List.replicate (min n 2) '\n' := rfl
      rw [h2]
      have hmin : min (n + 1) 2 = min n 2 + 1 := by omega
      rw [hmin, List.replicate_succ']
      simp
  | cons c cs ih =>
      intro n _ hlast
      by_cases hc : c = '\n'
      · subst hc
        cases cs with
        | nil => exact absurd hlast (by decide)
        | cons d ds =>
            rw [List.cons_append, collapseNLAux_nl, collapseNLAux_nl]
            exact ih (n + 1) (by simp) (lastIsNL_tail _ _ hlast)
      · rw [List.cons_append, collapseNLAux_other n c (cs ++ '\n' :: b) hc,
          collapseNLAux_other n c cs hc]
        rw [ih 0 (fun _ => by omega) (lastIsNL_tail _ _ hlast)]
        simp

lemma splitlinesAux_nl (acc : List Char) (cs : List Char) :
    splitlinesAux acc ('\n' :: cs)
      = acc.reverse :: (if cs.isEmpty then [] else splitlinesAux [] cs) := rfl

lemma splitlinesAux_other (acc : List Char) (c : Char) (cs : List Char) (hc : ¬ c = '\n') :
    splitlinesAux acc (c :: cs) = splitlinesAux (c :: acc) cs := by
  rw [splitlinesAux]
  simp [hc]

lemma splitlinesAux_noNL : ∀ (d : List Char), '\n' ∉ d → ∀ acc,
    splitlinesAux acc d = [acc.reverse ++ d] := by
  intro d
  induction d with
  | nil =>
      intro _ acc
      simp [splitlinesAux]
  | cons c cs ih =>
      intro hd acc
      have hc : ¬ (c = '\n') := by
        intro h
        exact hd (by rw [h]; exact List.mem_cons_self _ _)
      have hcs : '\n' ∉ cs := fun h => hd (List.mem_cons_of_mem _ h)
      rw [splitlinesAux_other acc c cs hc, ih hcs (c :: acc)]
      simp

lemma splitlinesAux_append (d : List Char) (hd : '\n' ∉ d) (hdne : d ≠ []) :
    ∀ (X : List Char) (acc : List Char), lastIsNL X = false →
      splitlinesAux acc (X ++ '\n' :: d) = splitlinesAux acc X ++ [d] := by
  intro X
  induction X with
  | nil =>
      intro acc _
      have hde : d.isEmpty = false := by
        cases d
        · exact absurd rfl hdne
        · rfl
      rw [List.nil_append, splitlinesAux_nl acc d, hde]
      rw [splitlinesAux_noNL d hd []]
      simp [splitlinesAux]
  | cons c cs ih =>
      intro acc hlast
      by_cases hc : c = '\n'
      · subst hc
        cases cs with
        | nil => exact absurd hlast (by decide)
        | cons e es =>
            rw [List.cons_append, splitlinesAux_nl acc ((e :: es) ++ '\n' :: d),
              splitlinesAux_nl acc (e :: es)]
            have h1 : ((e :: es) ++ '\n' :: d).isEmpty = false := rfl
            have h2 : (e :: es).isEmpty = false := rfl
            rw [h1, h2]
            simp only [Bool.false_eq_true, if_false]
            rw [ih [] (lastIsNL_tail _ _ hlast)]
            simp
      · rw [List.cons_append, splitlinesAux_other acc c (cs ++ '\n' :: d) hc,
          splitlinesAux_other acc c cs hc]
        exact ih (c :: acc) (lastIsNL_tail _ _ hlast)

lemma splitlinesL_append (X d : List Char) (hX : X ≠ []) (hlast : lastIsNL X = false)
    (hd : '\n' ∉ d) (hdne : d ≠ []) :
    splitlinesL (X ++ '\n' :: d) = splitlinesL X ++ [d] := by
  have h1 : (X ++ '\n' :: d).isEmpty = false := by
    cases X
    · exact absurd rfl hX
    · rfl
  have h2 : X.isEmpty = false := by
    cases X
    · exact absurd rfl hX
    · rfl
  unfold splitlinesL
  rw [h1, h2]
  simp only [Bool.false_eq_true, if_false]
  exact splitlinesAux_append d hd hdne X [] hlast

lemma clean_text_body_dateline (t d : String)
    (ht : lastIsNL t.data = false) (htne : t.data ≠ [])
    (hd : '\n' ∉ d.data)
    (hm : is_date_modified_lineL (collapseHW d.data) = true) :
    clean_text_body (t ++ "\n" ++ d) = clean_text_body t := by
  have hdata : (t ++ "\n" ++ d).data = t.data ++ '\n' :: d.data := by
    have h0 : (t ++ "\n" ++ d).data = (t.data ++ ['\n']) ++ d.data := rfl
    rw [h0, List.append_assoc]
    rfl
  have hW : collapseHW (t.data ++ '\n' :: d.data)
      = collapseHW t.data ++ '\n' :: collapseHW d.data := collapseHWAux_newline d.data t.data false
  have hlastW : lastIsNL (collapseHW t.data) = false := collapseHWAux_lastIsNL t.data false ht
  have hneW : collapseHW t.data ≠ [] := by
    rcases ht2 : t.data with _ | ⟨c, cs⟩
    · exact absurd ht2 htne
    · exact collapseHWAux_false_ne_nil c cs
  have hdW : '\n' ∉ collapseHW d.data := collapseHW_noNL d.data hd false
  have hNL : collapseNL (collapseHW t.data ++ '\n' :: collapseHW d.data)
      = collapseNL (collapseHW t.data) ++ '\n' :: collapseHW d.data :=
    collapseNLAux_append (collapseHW d.data) hdW (collapseHW t.data) 0 (fun _ => by omega) hlastW
  have hXne : collapseNL (collapseHW t.data) ≠ [] := collapseNLAux_ne_nil _ 0 hneW
  have hXlast : lastIsNL (collapseNL (collapseHW t.data)) = false :=
    collapseNLAux_lastIsNL _ 0 hneW hlastW
  have hdne2 : collapseHW d.data ≠ [] := by
    intro hcon
    rw [hcon] at hm
    exact absurd hm (by decide)
  have hsplit : splitlinesL (collapseNL (collapseHW t.data) ++ '\n' :: collapseHW d.data)
      = splitlinesL (collapseNL (collapseHW t.data)) ++ [collapseHW d.data] :=
    splitlinesL_append _ _ hXne hXlast hdW hdne2
  unfold clean_text_body
  rw [hdata, hW, hNL, hsplit, List.filter_append]
  simp [hm]

/-- C8 counterexample: a 304 Not Modified response is outside the 2xx
range, yet fetch_html returns its content instead of raising — the code
raises only for 4xx and 5xx statuses. -/
theorem fetch_html_non2xx_counterexample :
    fetch_html ⟨304, "cached page"⟩ = Except.ok "cached page"
    ∧ ¬ (200 ≤ 304 ∧ 304 < 300) := by
  constructor
  · rfl
  · decide

/-- C8 amended: for a 4xx or 5xx response (400 ≤ status < 600) the fetch
raises HTTPError instead of returning content, the exception is treated
as the per-source failure, and no store mutation occurs in that cycle. -/
theorem fetch_html_4xx5xx_fails (classify : String → String → Dict) (hash : String → String)
    (extract : String → String) (title url category lang : String) (st : Store)
    (r : HttpResponse) (dry_run : Bool) (now : Nat)
    (h4 : 400 ≤ r.status) (h6 : r.status < 600) :
    fetch_html r = Except.error "HTTPError"
    ∧ scrape_one_cycle classify hash extract title url category lang st r dry_run now
        = (st, some "HTTPError") := by
  have hf : fetch_html r = Except.error "HTTPError" := by
    unfold fetch_html raise_for_status
    rw [if_pos ⟨h4, h6⟩]
  refine ⟨hf, ?_⟩
  unfold scrape_one_cycle
  rw [hf]

/-- C8 witness: a 404 response raises and leaves the store untouched. -/
theorem fetch_html_4xx5xx_fails_witness :
    fetch_html ⟨404, "not found"⟩ = Except.error "HTTPError"
    ∧ scrape_one_cycle (fun _ _ => []) (fun s => s) (fun s => s) "t" "u" "c" "en" Store.empty
        ⟨404, "not found"⟩ false 5 = (Store.empty, some "HTTPError") :=
  fetch_html_4xx5xx_fails (fun _ _ => []) (fun s => s) (fun s => s) "t" "u" "c" "en" Store.empty
    ⟨404, "not found"⟩ false 5 (by decide) (by decide)

/-- C9: when two fetched pages extract to the same text except for a
trailing date-modified line — present with some date in one, and in the
other either absent or carrying a different date — the normalizer
produces identical output, so the fingerprints agree, and a subsequent
non-dry-run cycle fetching the variant against the stored fingerprint of
the first writes no new version. -/
theorem clean_text_date_modified_invariant
    (extract : String → String) (hash : String → String) (classify : String → String → Dict)
    (m1 m2 t d1 d2 : String)
    (he1 : extract m1 = t ++ "\n" ++ d1)
    (he2 : extract m2 = t ++ "\n" ++ d2 ∨ extract m2 = t)
    (ht : lastIsNL t.data = false) (htne : t.data ≠ [])
    (hd1 : '\n' ∉ d1.data) (hd2 : '\n' ∉ d2.data)
    (hm1 : is_date_modified_lineL (collapseHW d1.data) = true)
    (hm2 : is_date_modified_lineL (collapseHW d2.data) = true) :
    clean_text extract m1 = clean_text extract m2
    ∧ hash (clean_text extract m1) = hash (clean_text extract m2)
    ∧ (∀ (st : Store) (ex : SourceRec) (title url category lang : String) (now : Nat),
        st.reg = some ex → ex.content_hash = hash (clean_text extract m1) →
        (scrape_one classify hash title url category lang st (clean_text extract m2)
            false now).versions = st.versions) := by
  have hc1 : clean_text extract m1 = clean_text_body t := by
    unfold clean_text
    rw [he1]
    exact clean_text_body_dateline t d1 ht htne hd1 hm1
  have hc2 : clean_text extract m2 = clean_text_body t := by
    unfold clean_text
    rcases he2 with he2 | he2
    · rw [he2]
      exact clean_text_body_dateline t d2 ht htne hd2 hm2
    · rw [he2]
  have heq : clean_text extract m1 = clean_text extract m2 := by rw [hc1, hc2]
  refine ⟨heq, by rw [heq], ?_⟩
  intro st ex title url category lang now hreg hhash
  have hh : ex.content_hash = hash (clean_text extract m2) := by
    rw [hhash, heq]
  simp [scrape_one, upsert_page, hreg, hh]

/-- C9 witness: a page whose trailing "Date modified" line changes its
date normalizes identically, hashes identically, and a refetch leaves the
version history unchanged. -/
theorem clean_text_date_modified_invariant_witness :
    clean_text (fun s => s) "Money services businesses must register.\nDate modified: 2024-01-01"
      = clean_text (fun s => s) "Money services businesses must register.\nDate modified: 2025-02-02"
    ∧ (fun s => s) (clean_text (fun s => s) "Money services businesses must register.\nDate modified: 2024-01-01")
      = (fun s => s) (clean_text (fun s => s) "Money services businesses must register.\nDate modified: 2025-02-02")
    ∧ (scrape_one (fun _ _ => []) (fun s => s) "t" "u" "c" "en"
        ⟨some ⟨"t", "u", "en", "c",
               clean_text (fun s => s) "Money services businesses must register.\nDate modified: 2024-01-01",
               clean_text (fun s => s) "Money services businesses must register.\nDate modified: 2024-01-01",
               1, some 1, 1⟩,
         [⟨1, clean_text (fun s => s) "Money services businesses must register.\nDate modified: 2024-01-01",
           clean_text (fun s => s) "Money services businesses must register.\nDate modified: 2024-01-01", none⟩], 0⟩
        (clean_text (fun s => s) "Money services businesses must register.\nDate modified: 2025-02-02") false 9).versions
      = [⟨1, clean_text (fun s => s) "Money services businesses must register.\nDate modified: 2024-01-01",
           clean_text (fun s => s) "Money services businesses must register.\nDate modified: 2024-01-01", none⟩] := by
  have h := clean_text_date_modified_invariant (fun s => s) (fun s => s) (fun _ _ => [])
    "Money services businesses must register.\nDate modified: 2024-01-01"
    "Money services businesses must register.\nDate modified: 2025-02-02"
    "Money services businesses must register."
    "Date modified: 2024-01-01" "Date modified: 2025-02-02"
    rfl (Or.inl rfl) (by decide) (by decide) (by decide) (by decide) (by decide) (by decide)
  exact ⟨h.1, h.2.1, h.2.2
    ⟨some ⟨"t", "u", "en", "c",
           clean_text (fun s => s) "Money services businesses must register.\nDate modified: 2024-01-01",
           clean_text (fun s => s) "Money services businesses must register.\nDate modified: 2024-01-01",
           1, some 1, 1⟩,
     [⟨1, clean_text (fun s => s) "Money services businesses must register.\nDate modified: 2024-01-01",
       clean_text (fun s => s) "Money services businesses must register.\nDate modified: 2024-01-01", none⟩], 0⟩
    ⟨"t", "u", "en", "c",
     clean_text (fun s => s) "Money services businesses must register.\nDate modified: 2024-01-01",
     clean_text (fun s => s) "Money services businesses must register.\nDate modified: 2024-01-01",
     1, some 1, 1⟩
    "t" "u" "c" "en" 9 rfl rfl⟩
